import Mathlib

/-!
A shallow embedding of the `ts-storage-safe` repository (src/index.ts): a typed
facade over the browser's synchronous string key-value store, with optional key
namespacing and a pluggable serializer.  The host store is an external
collaborator, so it is modelled from the specification's contract; the facade's
operations are translated from the TypeScript source, with the mutable host
store threaded explicitly and thrown exceptions made explicit in return types.
-/

namespace TsStorageSafe

/-- Character-level embedding of JavaScript's `String.prototype.startsWith`,
used by `clear` in src/index.ts as `key.startsWith(this.prefix + ':')`:
`strStartsWith s pre` is true when `pre` is an initial segment of `s`. -/
def strStartsWith (s pre : String) : Bool :=
  pre.data.isPrefixOf s.data

/-- Modelled from the spec: the host key-value store of section 6, an external
collaborator (browser `localStorage`), not code of this repository.  Entries are
kept as an ordered list of (key, value) pairs so that the enumeration contract
(`length`, `key(index)`) is meaningful; `writeError k v = some msg` models
`setItem` raising a host-level failure (e.g. quota exceeded) with message
`msg`, in which case the write has no effect. -/
structure Store where
  entries : List (String × String)
  writeError : String → String → Option String

/-- Modelled from the spec: `getItem(key) -> string | absent-sentinel`
(section 6); returns the value stored under `k`, if any. -/
def Store.getItem (st : Store) (k : String) : Option String :=
  (st.entries.find? (fun e => e.1 == k)).map (fun e => e.2)

/-- Modelled from the spec: `setItem(key, value) -> void`, which "may fail
(e.g., quota exceeded) by raising a host-level failure" (section 6).  An
existing key keeps its position and gets the new value; a new key is appended
at the end of the enumeration order. -/
def Store.setItem (st : Store) (k v : String) : Except String Store :=
  match st.writeError k v with
  | some e => Except.error e
  | none =>
    if st.entries.any (fun e => e.1 == k) then
      Except.ok { st with entries := st.entries.map (fun e => if e.1 == k then (k, v) else e) }
    else
      Except.ok { st with entries := st.entries ++ [(k, v)] }

/-- Modelled from the spec: `removeItem(key) -> void`, no-op if the key is
absent (section 6). -/
def Store.removeItem (st : Store) (k : String) : Store :=
  { st with entries := st.entries.filter (fun e => e.1 != k) }

/-- Modelled from the spec: `clear() -> void` — removes all keys
unconditionally (section 6). -/
def Store.clear (st : Store) : Store :=
  { st with entries := [] }

/-- Modelled from the spec: `length` — count of stored keys (section 6). -/
def Store.length (st : Store) : Nat :=
  st.entries.length

/-- Modelled from the spec: `key(index) -> string | absent-sentinel` —
enumerate keys by position (section 6). -/
def Store.key (st : Store) (i : Nat) : Option String :=
  (st.entries[i]?).map (fun e => e.1)

/-- The `serializer` option of `StorageOptions` in src/index.ts: a
`stringify`/`parse` pair turning values into strings and back.  Either
function may throw; `Except.error` carries the thrown error's message (the
source formats a thrown `error` as `error.message`). -/
structure Serializer (α : Type) where
  stringify : α → Except String String
  parse : String → Except String α

/-- The `LocalStorage` class of src/index.ts.  Field `pfx` embeds the private
field `prefix` as stored by the constructor (`options.prefix || ''`, so an
absent or empty option is the empty string); `serializer` is the configured
codec (the constructor defaults it to the JSON codec, which lives outside the
repository and is here just some fixed `Serializer α`). -/
structure LocalStorage (α : Type) where
  pfx : String
  serializer : Serializer α

variable {α : Type}

/-- The private method `getKey` of src/index.ts:
the JS conditional `this.prefix ? prefix + ':' + key : key`
(truthiness of a string is being nonempty). -/
def LocalStorage.getKey (fac : LocalStorage α) (key : String) : String :=
  if fac.pfx ≠ "" then fac.pfx ++ ":" ++ key else key

/-- The method `set` of src/index.ts: stringify the value and write it under
the namespaced key; a failure of either step is caught and rethrown as
"Failed to set item: " followed by the cause's message.  The first component
is the host store after the call (unchanged when the call throws, since
`stringify` throws before any write and a failed host write has no effect);
the second is the thrown message, if any. -/
def LocalStorage.set (fac : LocalStorage α) (st : Store) (key : String) (value : α) :
    Store × Option String :=
  match fac.serializer.stringify value with
  | Except.error e => (st, some ("Failed to set item: " ++ e))
  | Except.ok s =>
    match st.setItem (fac.getKey key) s with
    | Except.error e => (st, some ("Failed to set item: " ++ e))
    | Except.ok st' => (st', none)

/-- The method `get` of src/index.ts: read the raw string under the namespaced
key; when absent (`null`) return the caller's default (itself possibly
absent); when present, parse it, rethrowing a parse failure as
"Failed to get item: " followed by the cause's message.  The first component
is the host store after the call. -/
def LocalStorage.get (fac : LocalStorage α) (st : Store) (key : String)
    (defaultValue : Option α) : Store × Except String (Option α) :=
  match st.getItem (fac.getKey key) with
  | none => (st, Except.ok defaultValue)
  | some raw =>
    match fac.serializer.parse raw with
    | Except.ok v => (st, Except.ok (some v))
    | Except.error e => (st, Except.error ("Failed to get item: " ++ e))

/-- The method `remove` of src/index.ts: delete the namespaced key from the
host store. -/
def LocalStorage.remove (fac : LocalStorage α) (st : Store) (key : String) : Store :=
  st.removeItem (fac.getKey key)

/-- The method `has` of src/index.ts: `getItem(getKey(key)) !== null`.  The
first component is the host store after the call. -/
def LocalStorage.has (fac : LocalStorage α) (st : Store) (key : String) : Store × Bool :=
  (st, (st.getItem (fac.getKey key)).isSome)

/-- The scan of `clear` in src/index.ts:
`for (let i = localStorage.length - 1; i >= 0; i--)` — iterate indices
`n-1, …, 0` downward over the current store, re-reading `key(i)` each
iteration and removing every key that starts with `prefix + ':'`.  The JS
guard `key && key.startsWith(prefix + ':')` collapses to the `startsWith`
test, because the only falsy non-null key is `""`, which never has the
nonempty pattern as a prefix. -/
def clearLoop (p : String) : Nat → Store → Store
  | 0, st => st
  | n + 1, st =>
    match st.key n with
    | some k =>
      if strStartsWith k (p ++ ":") then clearLoop p n (st.removeItem k)
      else clearLoop p n st
    | none => clearLoop p n st

/-- The method `clear` of src/index.ts: full host-store wipe when `clearAll`
is true, or when the facade has no prefix; otherwise the downward scan
removing exactly the keys in the facade's namespace. -/
def LocalStorage.clear (fac : LocalStorage α) (st : Store) (clearAll : Bool) : Store :=
  if clearAll then st.clear
  else if fac.pfx ≠ "" then clearLoop fac.pfx st.length st
  else st.clear

/-- The options record `StorageOptions` of src/index.ts: optional prefix and
optional serializer. -/
structure StorageOptions (α : Type) where
  optPrefix : Option String
  optSerializer : Option (Serializer α)

/-- The constructor of `LocalStorage` in src/index.ts: `options.prefix || ''`
collapses an absent (and an empty) prefix option to `""`; an absent
serializer defaults to the JSON codec, which is outside the repository and is
passed here as the parameter `jsonCodec`. -/
def LocalStorage.ofOptions (options : StorageOptions α) (jsonCodec : Serializer α) :
    LocalStorage α :=
  { pfx := options.optPrefix.getD ""
    serializer := options.optSerializer.getD jsonCodec }

/-- A string is a prefix of anything it is appended with. -/
theorem strStartsWith_append (a b : String) : strStartsWith (a ++ b) a = true := by
  simp [strStartsWith, List.isPrefixOf_iff_prefix]

/-- Appending the same `":" ++ k` tail to two strings is injective. -/
theorem append_colon_cancel {p₁ p₂ k : String} (h : p₁ ++ ":" ++ k = p₂ ++ ":" ++ k) :
    p₁ = p₂ := by
  have hd := congrArg String.data h
  simp only [String.data_append] at hd
  exact String.ext (List.append_cancel_right (List.append_cancel_right hd))

/-- With a nonempty configured prefix, `getKey` produces `pfx ++ ":" ++ key`. -/
theorem getKey_of_pfx_ne {fac : LocalStorage α} (h : fac.pfx ≠ "") (key : String) :
    fac.getKey key = fac.pfx ++ ":" ++ key := by
  simp [LocalStorage.getKey, h]

/-- A namespaced key starts with the namespace pattern. -/
theorem strStartsWith_getKey {fac : LocalStorage α} (h : fac.pfx ≠ "") (key : String) :
    strStartsWith (fac.getKey key) (fac.pfx ++ ":") = true := by
  rw [getKey_of_pfx_ne h]
  exact strStartsWith_append (fac.pfx ++ ":") key

/-- Finding the updated key after an in-place update yields the new pair. -/
theorem find?_map_update {l : List (String × String)} {k v : String}
    (h : l.any (fun e => e.1 == k) = true) :
    (l.map (fun e => if e.1 == k then (k, v) else e)).find? (fun e => e.1 == k)
      = some (k, v) := by
  induction l with
  | nil => simp at h
  | cons x xs ih =>
    rw [List.map_cons]
    by_cases hx : x.1 = k
    · rw [if_pos (by simpa using hx), List.find?_cons_of_pos _ (by simp)]
    · rw [if_neg (by simpa using hx), List.find?_cons_of_neg _ (by simpa using hx)]
      apply ih
      have hx' : (x.1 == k) = false := by simpa using hx
      simpa [List.any_cons, hx'] using h

/-- An in-place update of key `k` does not change lookups of other keys. -/
theorem find?_map_update_ne {l : List (String × String)} {k v q : String} (hq : q ≠ k) :
    (l.map (fun e => if e.1 == k then (k, v) else e)).find? (fun e => e.1 == q)
      = l.find? (fun e => e.1 == q) := by
  induction l with
  | nil => simp
  | cons x xs ih =>
    rw [List.map_cons]
    by_cases hx : x.1 = k
    · rw [if_pos (by simpa using hx),
        List.find?_cons_of_neg _ (by simpa using Ne.symm hq),
        List.find?_cons_of_neg _ (by simp [hx]; exact Ne.symm hq)]
      exact ih
    · rw [if_neg (by simpa using hx)]
      by_cases hxq : x.1 = q
      · rw [List.find?_cons_of_pos _ (by simpa using hxq),
          List.find?_cons_of_pos _ (by simpa using hxq)]
      · rw [List.find?_cons_of_neg _ (by simpa using hxq),
          List.find?_cons_of_neg _ (by simpa using hxq)]
        exact ih

/-- Filtering with a predicate that holds on every pair keyed `q` does not
change the lookup of `q`. -/
theorem find?_filter_of_imp {l : List (String × String)} {p : String × String → Bool}
    {q : String} (h : ∀ e : String × String, e.1 = q → p e = true) :
    (l.filter p).find? (fun e => e.1 == q) = l.find? (fun e => e.1 == q) := by
  induction l with
  | nil => simp
  | cons x xs ih =>
    by_cases hxq : x.1 = q
    · rw [List.filter_cons_of_pos (h x hxq),
        List.find?_cons_of_pos _ (by simpa using hxq),
        List.find?_cons_of_pos _ (by simpa using hxq)]
    · by_cases hp : p x = true
      · rw [List.filter_cons_of_pos hp,
          List.find?_cons_of_neg _ (by simpa using hxq),
          List.find?_cons_of_neg _ (by simpa using hxq)]
        exact ih
      · rw [List.filter_cons_of_neg (by simpa using hp),
          List.find?_cons_of_neg _ (by simpa using hxq)]
        exact ih

/-- Filtering with a predicate that fails on every pair keyed `q` removes `q`
from lookups entirely. -/
theorem find?_filter_of_not {l : List (String × String)} {p : String × String → Bool}
    {q : String} (h : ∀ e : String × String, e.1 = q → p e = false) :
    (l.filter p).find? (fun e => e.1 == q) = none := by
  rw [List.find?_eq_none]
  intro e he
  have := (List.mem_filter.mp he).2
  intro hbeq
  have heq : e.1 = q := by simpa using hbeq
  rw [h e heq] at this
  exact Bool.false_ne_true this

/-- After a successful `setItem`, the written key holds the written value. -/
theorem getItem_setItem_self {st st' : Store} {k v : String}
    (h : st.setItem k v = Except.ok st') : st'.getItem k = some v := by
  unfold Store.setItem at h
  cases hw : st.writeError k v with
  | some e => rw [hw] at h; exact absurd h (by simp)
  | none =>
    rw [hw] at h
    by_cases hany : st.entries.any (fun e => e.1 == k) = true
    · rw [if_pos hany] at h
      cases h
      show (List.find? _ _).map _ = _
      rw [find?_map_update hany]
      rfl
    · rw [if_neg hany] at h
      cases h
      have hnone : st.entries.find? (fun e => e.1 == k) = none := by
        rw [List.find?_eq_none]
        intro e he hbeq
        exact hany (List.any_eq_true.mpr ⟨e, he, hbeq⟩)
      show ((st.entries ++ [(k, v)]).find? _).map _ = _
      rw [List.find?_append, hnone, Option.none_or,
        List.find?_cons_of_pos _ (by simp)]
      rfl

/-- A successful `setItem` of key `k` does not change the lookup of any other
key. -/
theorem getItem_setItem_ne {st st' : Store} {k v : String}
    (h : st.setItem k v = Except.ok st') {q : String} (hq : q ≠ k) :
    st'.getItem q = st.getItem q := by
  unfold Store.setItem at h
  cases hw : st.writeError k v with
  | some e => rw [hw] at h; exact absurd h (by simp)
  | none =>
    rw [hw] at h
    by_cases hany : st.entries.any (fun e => e.1 == k) = true
    · rw [if_pos hany] at h
      cases h
      show (List.find? _ _).map _ = (List.find? _ _).map _
      rw [find?_map_update_ne hq]
    · rw [if_neg hany] at h
      cases h
      show ((st.entries ++ [(k, v)]).find? _).map _ = (List.find? _ _).map _
      rw [List.find?_append,
        List.find?_cons_of_neg _ (by simpa using Ne.symm hq),
        List.find?_nil, Option.or_none]

/-- Removing a key makes it absent. -/
theorem getItem_removeItem_self (st : Store) (k : String) :
    (st.removeItem k).getItem k = none := by
  unfold Store.removeItem Store.getItem
  exact congrArg (Option.map _) (find?_filter_of_not (fun e he => by simp [he]))

/-- Removing a key does not change the lookup of any other key. -/
theorem getItem_removeItem_ne (st : Store) {k q : String} (hq : q ≠ k) :
    (st.removeItem k).getItem q = st.getItem q := by
  unfold Store.removeItem Store.getItem
  exact congrArg (Option.map _) (find?_filter_of_imp (fun e he => by simp [he, hq]))

/-- An element found in a filtered list sits at the same or a later index in
the original list, and satisfies the filter's predicate. -/
theorem getElem?_filter_le {p : String × String → Bool} {l : List (String × String)} :
    ∀ {i : Nat} {a : String × String}, (l.filter p)[i]? = some a →
      ∃ j, i ≤ j ∧ l[j]? = some a ∧ p a = true := by
  induction l with
  | nil => intro i a h; simp at h
  | cons x xs ih =>
    intro i a h
    by_cases hx : p x = true
    · rw [List.filter_cons_of_pos hx] at h
      cases i with
      | zero =>
        rw [List.getElem?_cons_zero] at h
        cases h
        exact ⟨0, Nat.le_refl 0, by simp, hx⟩
      | succ i =>
        rw [List.getElem?_cons_succ] at h
        obtain ⟨j, hij, hj, hpa⟩ := ih h
        exact ⟨j + 1, Nat.succ_le_succ hij, by simpa using hj, hpa⟩
    · rw [List.filter_cons_of_neg (by simpa using hx)] at h
      obtain ⟨j, hij, hj, hpa⟩ := ih h
      exact ⟨j + 1, Nat.le_succ_of_le hij, by simpa using hj, hpa⟩

/-- The downward scan of `clear` computes a filter: if every index at or above
the scan's starting point holds a non-matching key, the scan leaves exactly
the entries whose keys do not match the namespace pattern.  The downward
order makes the invariant stable under in-place deletion, as indices below
the current one are unaffected by removals at or above it. -/
theorem clearLoop_eq_filter (p : String) :
    ∀ (n : Nat) (st : Store),
      (∀ i k, n ≤ i → st.key i = some k → strStartsWith k (p ++ ":") = false) →
      (clearLoop p n st).entries
        = st.entries.filter (fun e => !(strStartsWith e.1 (p ++ ":"))) := by
  intro n
  induction n with
  | zero =>
    intro st h
    rw [clearLoop]
    symm
    rw [List.filter_eq_self]
    intro a ha
    obtain ⟨i, hi⟩ := List.mem_iff_getElem?.mp ha
    have hk : st.key i = some a.1 := by simp [Store.key, hi]
    rw [h i a.1 (Nat.zero_le i) hk]
    rfl
  | succ n ih =>
    intro st h
    cases hk : st.key n with
    | none =>
      have hred : clearLoop p (n + 1) st = clearLoop p n st := by
        rw [clearLoop, hk]
      rw [hred]
      apply ih st
      intro i k hi hki
      rcases Nat.eq_or_lt_of_le hi with heq | hlt
      · rw [← heq, hk] at hki
        exact absurd hki (by simp)
      · exact h i k hlt hki
    | some k =>
      have hred : clearLoop p (n + 1) st
          = if strStartsWith k (p ++ ":") = true then clearLoop p n (st.removeItem k)
            else clearLoop p n st := by
        rw [clearLoop, hk]
      rw [hred]
      by_cases hs : strStartsWith k (p ++ ":") = true
      · rw [if_pos hs]
        have hrm : (st.removeItem k).entries = st.entries.filter (fun e => e.1 != k) := rfl
        have hprem : ∀ i k', n ≤ i → (st.removeItem k).key i = some k' →
            strStartsWith k' (p ++ ":") = false := by
          intro i k' hi hki'
          obtain ⟨a, ha, hak⟩ : ∃ a, (st.removeItem k).entries[i]? = some a ∧ a.1 = k' := by
            simpa [Store.key, Option.map_eq_some'] using hki'
          rw [hrm] at ha
          obtain ⟨j, hij, hj, hpa⟩ := getElem?_filter_le ha
          have hjn : j ≠ n := by
            intro hcontra
            subst hcontra
            have hkj : st.entries[j]?.map (fun e => e.1) = some k := hk
            rw [hj] at hkj
            have hak' : a.1 = k := by simpa using hkj
            rw [hak'] at hpa
            simp at hpa
          have hn1 : n + 1 ≤ j :=
            Nat.succ_le_of_lt (Nat.lt_of_le_of_ne (Nat.le_trans hi hij) (Ne.symm hjn))
          have hkey : st.key j = some k' := by simp [Store.key, hj, hak]
          exact h j k' hn1 hkey
        rw [ih (st.removeItem k) hprem, hrm, List.filter_filter]
        apply List.filter_congr
        intro a ha
        by_cases hak : a.1 = k
        · rw [hak, hs]
          rfl
        · have hne : (a.1 != k) = true := by simpa using hak
          rw [hne, Bool.and_true]
      · rw [if_neg hs]
        apply ih st
        intro i k' hi hki'
        rcases Nat.eq_or_lt_of_le hi with heq | hlt
        · rw [← heq, hk] at hki'
          have : k' = k := by injection hki' with h'; exact h'.symm
          rw [this]
          exact Bool.eq_false_iff.mpr hs
        · exact h i k' hlt hki'

/-- The scoped path of `clear` (nonempty configured prefix, `clearAll` false)
leaves exactly the entries whose keys do not start with the namespace
pattern. -/
theorem clear_false_entries (fac : LocalStorage α) (st : Store) (h : fac.pfx ≠ "") :
    (fac.clear st false).entries
      = st.entries.filter (fun e => !(strStartsWith e.1 (fac.pfx ++ ":"))) := by
  unfold LocalStorage.clear
  rw [if_neg (by simp), if_pos h]
  apply clearLoop_eq_filter
  intro i k hi hk
  have hi' : st.entries.length ≤ i := hi
  unfold Store.key at hk
  rw [List.getElem?_eq_none hi'] at hk
  exact absurd hk (by simp)

/-- After a scoped `clear`, every key in the namespace is absent. -/
theorem clear_false_getItem_matching (fac : LocalStorage α) (st : Store) {q : String}
    (h : fac.pfx ≠ "") (hq : strStartsWith q (fac.pfx ++ ":") = true) :
    (fac.clear st false).getItem q = none := by
  unfold Store.getItem
  rw [clear_false_entries fac st h,
    find?_filter_of_not (fun e he => by rw [he, hq]; rfl)]
  rfl

/-- A scoped `clear` does not change the lookup of any key outside the
namespace. -/
theorem clear_false_getItem_other (fac : LocalStorage α) (st : Store) {q : String}
    (h : fac.pfx ≠ "") (hq : strStartsWith q (fac.pfx ++ ":") = false) :
    (fac.clear st false).getItem q = st.getItem q := by
  unfold Store.getItem
  rw [clear_false_entries fac st h,
    find?_filter_of_imp (fun e he => by rw [he, hq]; rfl)]

/-- A `set` call that did not throw decomposes into a successful `stringify`
followed by a successful host write of the namespaced key. -/
theorem set_ok_elim {fac : LocalStorage α} {st : Store} {k : String} {v : α}
    (h : (fac.set st k v).2 = none) :
    ∃ s, fac.serializer.stringify v = Except.ok s ∧
      st.setItem (fac.getKey k) s = Except.ok (fac.set st k v).1 := by
  cases hs : fac.serializer.stringify v with
  | error e =>
    exact absurd h (by simp [LocalStorage.set, hs])
  | ok s =>
    cases hw : st.setItem (fac.getKey k) s with
    | error e =>
      exact absurd h (by simp [LocalStorage.set, hs, hw])
    | ok st' =>
      exact ⟨s, rfl, by simp [LocalStorage.set, hs, hw]⟩

/-- A concrete facade configuration used in witness statements: identity
codec over `String`, namespace `"app"`. -/
def appFac : LocalStorage String :=
  ⟨"app", ⟨fun s => Except.ok s, fun s => Except.ok s⟩⟩

/-- A second concrete facade sharing the host store, namespace `"user"`. -/
def userFac : LocalStorage String :=
  ⟨"user", ⟨fun s => Except.ok s, fun s => Except.ok s⟩⟩

/-- A concrete facade with no configured prefix. -/
def bareFac : LocalStorage String :=
  ⟨"", ⟨fun s => Except.ok s, fun s => Except.ok s⟩⟩

/-- A concrete facade whose serializer always throws. -/
def failFac : LocalStorage String :=
  ⟨"app", ⟨fun _ => Except.error "boom", fun _ => Except.error "boom"⟩⟩

/-- A concrete host store with reliable writes, holding one entry in each of
two namespaces and one unnamespaced entry. -/
def demoStore : Store :=
  ⟨[("app:key1", "v1"), ("user:key1", "v2"), ("other", "x")], fun _ _ => none⟩

/-- C1: for every key and value, when the configured serializer round-trips
the value (`parse (stringify v) = v`, as the default JSON codec does on
serializable values and as any custom reversible codec does), a `set k v`
that does not throw followed by `get k` on the same facade returns exactly
`v`. -/
theorem set_get_roundtrip (fac : LocalStorage α) (st : Store) (k : String) (v : α)
    (hrt : ∀ s, fac.serializer.stringify v = Except.ok s →
      fac.serializer.parse s = Except.ok v)
    (hok : (fac.set st k v).2 = none) :
    (fac.get (fac.set st k v).1 k none).2 = Except.ok (some v) := by
  obtain ⟨s, hs, hw⟩ := set_ok_elim hok
  simp only [LocalStorage.get, getItem_setItem_self hw, hrt s hs]

/-- C1 witness: the identity codec round-trips, and after `set` the `get`
returns the stored value. -/
theorem set_get_roundtrip_wit :
    (appFac.set demoStore "key2" "vv").2 = none ∧
    (appFac.get (appFac.set demoStore "key2" "vv").1 "key2" none).2
      = Except.ok (some "vv") :=
  ⟨by decide,
   set_get_roundtrip appFac demoStore "key2" "vv"
     (fun s hs => by cases hs; rfl) (by decide)⟩

/-- C5: when the namespaced key is absent from the host store, `get k d`
returns exactly `d` and `get k` with no default returns the absent result,
without invoking the serializer — the statement holds for every serializer,
including one whose `parse` always throws. -/
theorem get_absent_default (fac : LocalStorage α) (st : Store) (k : String) (d : Option α)
    (h : st.getItem (fac.getKey k) = none) :
    fac.get st k d = (st, Except.ok d) := by
  unfold LocalStorage.get
  rw [h]

/-- C5 witness: a facade whose `parse` always throws still returns the given
default (and the absent result for the missing default) on an absent key. -/
theorem get_absent_default_wit :
    demoStore.getItem (failFac.getKey "missing") = none ∧
    failFac.get demoStore "missing" (some "d") = (demoStore, Except.ok (some "d")) ∧
    failFac.get demoStore "missing" none = (demoStore, Except.ok none) :=
  ⟨by decide,
   get_absent_default failFac demoStore "missing" (some "d") (by decide),
   get_absent_default failFac demoStore "missing" none (by decide)⟩

/-- C6: on a single facade, `has k` is true immediately after a `set k v`
that did not throw, and false immediately after `remove k`. -/
theorem has_after_set_and_remove (fac : LocalStorage α) (st : Store) (k : String) (v : α)
    (hok : (fac.set st k v).2 = none) :
    (fac.has (fac.set st k v).1 k).2 = true ∧
    (fac.has (fac.remove st k) k).2 = false := by
  constructor
  · obtain ⟨s, hs, hw⟩ := set_ok_elim hok
    show ((fac.set st k v).1.getItem (fac.getKey k)).isSome = true
    rw [getItem_setItem_self hw]
    rfl
  · show ((st.removeItem (fac.getKey k)).getItem (fac.getKey k)).isSome = false
    rw [getItem_removeItem_self]
    rfl

/-- C6 witness: on a concrete facade and store, `has` flips as stated. -/
theorem has_after_set_and_remove_wit :
    (appFac.set demoStore "key2" "vv").2 = none ∧
    ((appFac.has (appFac.set demoStore "key2" "vv").1 "key2").2 = true ∧
     (appFac.has (appFac.remove demoStore "key2") "key2").2 = false) :=
  ⟨by decide, has_after_set_and_remove appFac demoStore "key2" "vv" (by decide)⟩

/-- C9: when `stringify` throws, the failing `set` leaves the host store
completely unchanged — no key is added, removed, or modified. -/
theorem set_stringify_failure_atomic (fac : LocalStorage α) (st : Store) (k : String)
    (v : α) (e : String) (h : fac.serializer.stringify v = Except.error e) :
    (fac.set st k v).1 = st := by
  simp [LocalStorage.set, h]

/-- C9 witness: a throwing serializer leaves the concrete store untouched. -/
theorem set_stringify_failure_atomic_wit :
    failFac.serializer.stringify "v" = Except.error "boom" ∧
    (failFac.set demoStore "k" "v").1 = demoStore :=
  ⟨rfl, set_stringify_failure_atomic failFac demoStore "k" "v" "boom" rfl⟩

/-- C10: `get` and `has` never modify the host store — whether the key is
present or absent, and for `get` even when decoding the stored string
fails. -/
theorem get_has_pure (fac : LocalStorage α) (st : Store) (k : String) (d : Option α) :
    (fac.get st k d).1 = st ∧ (fac.has st k).1 = st := by
  constructor
  · unfold LocalStorage.get
    cases st.getItem (fac.getKey k) with
    | none => rfl
    | some raw =>
      show (match fac.serializer.parse raw with
        | Except.ok v => (st, Except.ok (some v))
        | Except.error e => (st, Except.error ("Failed to get item: " ++ e))).1 = st
      cases fac.serializer.parse raw with
      | ok v => rfl
      | error e => rfl
  · rfl

/-- C2: with a nonempty configured prefix `P`, `clear()` with `clearAll`
false removes from the host store exactly the keys beginning with `"P:"`:
the store keeps exactly its non-matching entries (in order, values intact),
every matching key becomes absent, and every non-matching key keeps its
value — for every initial host-store content. -/
theorem clear_scoped (fac : LocalStorage α) (st : Store) (q : String) (h : fac.pfx ≠ "") :
    (fac.clear st false).entries
        = st.entries.filter (fun e => !(strStartsWith e.1 (fac.pfx ++ ":"))) ∧
      (strStartsWith q (fac.pfx ++ ":") = true → (fac.clear st false).getItem q = none) ∧
      (strStartsWith q (fac.pfx ++ ":") = false →
        (fac.clear st false).getItem q = st.getItem q) :=
  ⟨clear_false_entries fac st h,
   fun hq => clear_false_getItem_matching fac st h hq,
   fun hq => clear_false_getItem_other fac st h hq⟩

/-- C2 witness: on a concrete store holding `"app:key1"`, `"user:key1"` and
`"other"`, the `"app"` facade's scoped clear removes exactly its namespace. -/
theorem clear_scoped_wit :
    appFac.pfx ≠ "" ∧
    ((appFac.clear demoStore false).entries
        = demoStore.entries.filter (fun e => !(strStartsWith e.1 (appFac.pfx ++ ":"))) ∧
      (strStartsWith "app:key1" (appFac.pfx ++ ":") = true →
        (appFac.clear demoStore false).getItem "app:key1" = none) ∧
      (strStartsWith "app:key1" (appFac.pfx ++ ":") = false →
        (appFac.clear demoStore false).getItem "app:key1" = demoStore.getItem "app:key1")) :=
  ⟨by decide, clear_scoped appFac demoStore "app:key1" (by decide)⟩

/-- C3: `clear` with `clearAll = true`, and `clear` with either argument on a
facade whose configured prefix is empty (which is how the constructor stores
an absent or empty prefix option), removes every key from the host store. -/
theorem clear_wipes_all (fac : LocalStorage α) (st : Store) (b : Bool)
    (h : b = true ∨ fac.pfx = "") : (fac.clear st b).entries = [] := by
  rcases h with hb | hp
  · subst hb
    rfl
  · cases b with
    | true => rfl
    | false =>
      unfold LocalStorage.clear
      rw [if_neg (by simp), if_neg (by simp [hp])]
      rfl

/-- C3 witness: an unprefixed facade's plain `clear()` empties a store that
also holds other facades' namespaced entries. -/
theorem clear_wipes_all_wit :
    (false = true ∨ bareFac.pfx = "") ∧ (bareFac.clear demoStore false).entries = [] :=
  ⟨Or.inr rfl, clear_wipes_all bareFac demoStore false (Or.inr rfl)⟩

/-- C4 counterexample: the facade with nonempty prefix `"app"` offers
`clear` with `clearAll = true` among its operations, and that call deletes
the key `"other"`, which does not begin with `"app:"` — so it is not the
case that every facade operation touches only keys of the form
`"app:<key>"`. -/
theorem clear_all_escapes_namespace :
    strStartsWith "other" (appFac.pfx ++ ":") = false ∧
    demoStore.getItem "other" = some "x" ∧
    (appFac.clear demoStore true).getItem "other" = none :=
  ⟨by decide, by decide, by decide⟩

/-- C4 amended: with a nonempty prefix `P`, the operations `set`, `get`,
`remove`, `has`, and `clear` with `clearAll = false` only ever write, read,
or delete host keys of the form `"P:<key>"`: the writers leave every key
outside the namespace unchanged, and the readers' results depend only on the
keys inside the namespace.  `clear` with `clearAll = true` is the exception
exhibited by the counterexample: it wipes the entire host store. -/
theorem ops_confined_to_namespace (fac : LocalStorage α) (st st₂ : Store)
    (k q : String) (v : α) (d : Option α) (h : fac.pfx ≠ "")
    (hq : strStartsWith q (fac.pfx ++ ":") = false)
    (hagree : ∀ r, strStartsWith r (fac.pfx ++ ":") = true →
      st.getItem r = st₂.getItem r) :
    (fac.set st k v).1.getItem q = st.getItem q ∧
    (fac.remove st k).getItem q = st.getItem q ∧
    (fac.clear st false).getItem q = st.getItem q ∧
    (fac.get st k d).2 = (fac.get st₂ k d).2 ∧
    (fac.has st k).2 = (fac.has st₂ k).2 := by
  have hqk : q ≠ fac.getKey k := by
    intro hc
    rw [hc, strStartsWith_getKey h] at hq
    exact Bool.noConfusion hq
  have hg : st.getItem (fac.getKey k) = st₂.getItem (fac.getKey k) :=
    hagree _ (strStartsWith_getKey h k)
  refine ⟨?_, ?_, ?_, ?_, ?_⟩
  · unfold LocalStorage.set
    cases hs : fac.serializer.stringify v with
    | error e => rfl
    | ok s =>
      show ((match st.setItem (fac.getKey k) s with
        | Except.error e => (st, some ("Failed to set item: " ++ e))
        | Except.ok st' => (st', none)).1).getItem q = st.getItem q
      cases hw : st.setItem (fac.getKey k) s with
      | error e => rfl
      | ok st' => exact getItem_setItem_ne hw hqk
  · exact getItem_removeItem_ne st hqk
  · exact clear_false_getItem_other fac st h hq
  · unfold LocalStorage.get
    rw [hg]
    cases st₂.getItem (fac.getKey k) with
    | none => rfl
    | some raw =>
      show (match fac.serializer.parse raw with
        | Except.ok v => (st, Except.ok (some v))
        | Except.error e => (st, Except.error ("Failed to get item: " ++ e))).2
        = (match fac.serializer.parse raw with
        | Except.ok v => (st₂, Except.ok (some v))
        | Except.error e => (st₂, Except.error ("Failed to get item: " ++ e))).2
      cases fac.serializer.parse raw with
      | ok v => rfl
      | error e => rfl
  · show (st.getItem (fac.getKey k)).isSome = (st₂.getItem (fac.getKey k)).isSome
    rw [hg]

/-- C4 amended witness: on the concrete store, the writers leave the foreign
key `"other"` untouched and the readers agree across equal namespaces. -/
theorem ops_confined_to_namespace_wit :
    appFac.pfx ≠ "" ∧ strStartsWith "other" (appFac.pfx ++ ":") = false ∧
    ((appFac.set demoStore "key1" "z").1.getItem "other" = demoStore.getItem "other" ∧
     (appFac.remove demoStore "key1").getItem "other" = demoStore.getItem "other" ∧
     (appFac.clear demoStore false).getItem "other" = demoStore.getItem "other" ∧
     (appFac.get demoStore "key1" none).2 = (appFac.get demoStore "key1" none).2 ∧
     (appFac.has demoStore "key1").2 = (appFac.has demoStore "key1").2) :=
  ⟨by decide, by decide,
   ops_confined_to_namespace appFac demoStore demoStore "key1" "other" "z" none
     (by decide) (by decide) (fun r _ => rfl)⟩

/-- C7: two facades with distinct nonempty prefixes are isolated: a
`set k v` on the first that does not throw leaves `has k` on the second
unchanged, and the host store then contains a key literally equal to
`p1 ++ ":" ++ k`. -/
theorem set_prefix_isolated (fac₁ fac₂ : LocalStorage α) (st : Store) (k : String)
    (v : α) (h₁ : fac₁.pfx ≠ "") (h₂ : fac₂.pfx ≠ "") (hne : fac₁.pfx ≠ fac₂.pfx)
    (hok : (fac₁.set st k v).2 = none) :
    (fac₂.has (fac₁.set st k v).1 k).2 = (fac₂.has st k).2 ∧
    ((fac₁.set st k v).1.getItem (fac₁.pfx ++ ":" ++ k)).isSome = true := by
  obtain ⟨s, hs, hw⟩ := set_ok_elim hok
  have hkeys : fac₂.getKey k ≠ fac₁.getKey k := by
    rw [getKey_of_pfx_ne h₁, getKey_of_pfx_ne h₂]
    intro hc
    exact Ne.symm hne (append_colon_cancel hc)
  constructor
  · show ((fac₁.set st k v).1.getItem (fac₂.getKey k)).isSome
      = (st.getItem (fac₂.getKey k)).isSome
    rw [getItem_setItem_ne hw hkeys]
  · rw [← getKey_of_pfx_ne h₁, getItem_setItem_self hw]
    rfl

/-- C7 witness: a write through the `"app"` facade does not change `has` on
the `"user"` facade, and lands under the literal key `"app:kk"`. -/
theorem set_prefix_isolated_wit :
    appFac.pfx ≠ userFac.pfx ∧
    ((userFac.has (appFac.set demoStore "kk" "vv").1 "kk").2
        = (userFac.has demoStore "kk").2 ∧
     ((appFac.set demoStore "kk" "vv").1.getItem (appFac.pfx ++ ":" ++ "kk")).isSome
        = true) :=
  ⟨by decide,
   set_prefix_isolated appFac userFac demoStore "kk" "vv"
     (by decide) (by decide) (by decide) (by decide)⟩

/-- C8: `set` raises exactly when the serializer's `stringify` or the host
write fails, and the raised error's message is "Failed to set item: "
followed by the underlying failure's message.  (The source throws a plain
`Error` carrying that message; the spec's `StorageWriteError` names this
error kind, which the embedding identifies by its message.) -/
theorem set_error_iff (fac : LocalStorage α) (st : Store) (k : String) (v : α)
    (m : String) :
    (fac.set st k v).2 = some m ↔
      ((∃ e, fac.serializer.stringify v = Except.error e ∧
          m = "Failed to set item: " ++ e) ∨
       (∃ s e, fac.serializer.stringify v = Except.ok s ∧
          st.setItem (fac.getKey k) s = Except.error e ∧
          m = "Failed to set item: " ++ e)) := by
  cases hs : fac.serializer.stringify v with
  | error e =>
    have hv : (fac.set st k v).2 = some ("Failed to set item: " ++ e) := by
      simp [LocalStorage.set, hs]
    rw [hv]
    constructor
    · intro h
      exact Or.inl ⟨e, rfl, (Option.some.inj h).symm⟩
    · rintro (⟨e', he', hm⟩ | ⟨s, e', hs', hw, hm⟩)
      · injection he' with hee
        rw [hm, hee]
      · exact Except.noConfusion hs'
  | ok s =>
    cases hw : st.setItem (fac.getKey k) s with
    | error e =>
      have hv : (fac.set st k v).2 = some ("Failed to set item: " ++ e) := by
        simp [LocalStorage.set, hs, hw]
      rw [hv]
      constructor
      · intro h
        exact Or.inr ⟨s, e, rfl, hw, (Option.some.inj h).symm⟩
      · rintro (⟨e', he', hm⟩ | ⟨s', e', hs', hw', hm⟩)
        · exact Except.noConfusion he'
        · injection hs' with hss
          subst hss
          rw [hw] at hw'
          injection hw' with hee
          rw [hm, hee]
    | ok st' =>
      have hv : (fac.set st k v).2 = none := by
        simp [LocalStorage.set, hs, hw]
      rw [hv]
      constructor
      · intro h
        exact Option.noConfusion h
      · rintro (⟨e', he', hm⟩ | ⟨s', e', hs', hw', hm⟩)
        · exact Except.noConfusion he'
        · injection hs' with hss
          subst hss
          rw [hw] at hw'
          exact Except.noConfusion hw'

end TsStorageSafe

